import Mathlib

/-
Verification of the storage-quota and lifecycle subsystem of the
llm-chat-app-template worker (two implementation variants: a
server-mediated upload worker and a presigned-URL upload worker).

The embedding models:
  - the R2 object store as an association list from keys to objects,
    where each object carries its size and its custom metadata
    (`pinned`, `last_accessed`) plus the store-assigned upload time;
  - the FILES_KV `used_bytes` cell as an `Option Int` (the KV stores the
    decimal string of the number; `Number(String(n))` round-trips, and
    `Number(v) || 0` on an absent cell is `0`, modelled by `Option.getD 0`);
  - request handlers as pure functions from a gateway state (and the
    request's data) to a response value and a new state; the platform
    clock, `crypto.randomUUID`, `Date.parse` and the crypto hash
    primitives are injected as parameters;
  - fallible I/O (for the error-handling claims) via `Except`.
-/

/-- `BYTES_LIMIT = 9.5 * 1024 * 1024 * 1024` (exact in IEEE doubles): the
fixed quota ceiling shared by both worker variants. -/
def BYTES_LIMIT : Int := 10200547328

/-- `MAX_FILES_PER_BATCH = 20` in both variants. -/
def MAX_FILES_PER_BATCH : Nat := 20

/-- `ONE_WEEK_MS = 7 * 24 * 60 * 60 * 1000`. -/
def ONE_WEEK_MS : Int := 604800000

/-- An object held by the R2 bucket: its byte size, the two custom
metadata fields the workers read and write (`pinned`, `last_accessed`,
both strings in R2 custom metadata), the store-assigned upload time
(`R2Object.uploaded`, modelled as the string `Date.parse` later sees),
and the recorded content type. -/
structure R2Object where
  size : Nat
  pinned : Option String
  last_accessed : Option String
  uploaded : Option String
  contentType : Option String
deriving DecidableEq, Repr

/-- The gateway's persistent state: the R2 bucket contents (association
list keyed by object key), the FILES_KV `used_bytes` cell, and the
`pending:*` snapshot the presigned variant writes (pin flag plus
key/size pairs). -/
structure GwState where
  files : List (String × R2Object)
  cell : Option Int
  pending : Option (Bool × List (String × Nat))
deriving DecidableEq, Repr

/-- A file declaration in an upload batch: `{name, size, type}` as sent
by the client (the type may be absent). -/
structure FileDecl where
  name : String
  size : Nat
  type : Option String
deriving DecidableEq, Repr

/-- Lookup in the bucket: `env.FILES.head(key)` / `env.FILES.get(key)`
(both see the same object in this sequential model). -/
def r2get (k : String) : List (String × R2Object) → Option R2Object
  | [] => none
  | (k', o) :: rest => if k = k' then some o else r2get k rest

/-- `env.FILES.put(key, body, {...})`: overwrites the object stored
under `key`, or creates it. -/
def r2put (k : String) (o : R2Object) : List (String × R2Object) → List (String × R2Object)
  | [] => [(k, o)]
  | (k', o') :: rest => if k = k' then (k', o) :: rest else (k', o') :: r2put k o rest

/-- `env.FILES.delete(key)`: removes the object stored under `key`. -/
def r2erase (k : String) : List (String × R2Object) → List (String × R2Object)
  | [] => []
  | (k', o) :: rest => if k = k' then rest else (k', o) :: r2erase k rest

/-- The numeric value of the `used_bytes` cell as `bumpUsedBytes` reads
it: `Number(await FILES_KV.get("used_bytes")) || 0`. -/
def cellVal (s : GwState) : Int :=
  s.cell.getD 0

/-- Sum of the sizes of the listed objects (`for (const o of list.objects)
total += o.size`, over an exhausted pagination). -/
def sumSizes (l : List (String × R2Object)) : Int :=
  (l.map (fun p => (p.2.size : Int))).sum

/-- Sum of the declared sizes of an upload batch
(`total += Number(f.size || 0)` / `batchBytes += entry.size`). -/
def batchSum (files : List FileDecl) : Int :=
  (files.map (fun f => (f.size : Int))).sum

/-- `getUsedBytes` (both variants, part_000 lines 313-329 and 670-689,
here without I/O failures): return the KV cell if present, otherwise
reconstruct by summing a full listing and persist the result. -/
def getUsedBytes (s : GwState) : Int × GwState :=
  match s.cell with
  | some v => (v, s)
  | none => (sumSizes s.files, { s with cell := some (sumSizes s.files) })

/-- `bumpUsedBytes` (variant 2, lines 690-694): read the cell, add the
delta, write it back. Its read and its write are two separate awaited
KV calls; this definition is the effect of one complete, uninterleaved
execution. -/
def bumpUsedBytes (s : GwState) (delta : Int) : GwState :=
  { s with cell := some (cellVal s + delta) }

/-- `getUsedBytes` of the presigned variant (lines 670-689) with its two
try/catch blocks made explicit: `kv` is the outcome of the KV read,
`listing` the outcome of the full R2 listing. A caught KV error or an
absent cell falls through to the listing; a caught listing error
returns 0 (the trailing `FILES_KV.put(...).catch(() => \x7b\x7d)` swallows
its own failure and does not affect the returned value). -/
def getUsedBytesEx (kv : Except Unit (Option Int)) (listing : Except Unit (List (String × R2Object))) : Int :=
  match kv with
  | .ok (some v) => v
  | _ =>
    match listing with
    | .ok objs => sumSizes objs
    | .error _ => 0

/-- The `/api/quota` route of the presigned variant (lines 802-805):
returns `(usedBytes, limitBytes, okToUpload)` with
`okToUpload = used < BYTES_LIMIT`. -/
def handleQuotaEx (kv : Except Unit (Option Int)) (listing : Except Unit (List (String × R2Object))) : Int × Int × Bool :=
  let used := getUsedBytesEx kv listing
  (used, BYTES_LIMIT, decide (used < BYTES_LIMIT))

/-- The MIME allow-list (identical in both variants). -/
def ALLOWED_MIME : List String :=
  ["text/plain", "text/markdown", "text/csv", "text/tab-separated-values",
   "application/json", "application/pdf",
   "application/vnd.openxmlformats-officedocument.wordprocessingml.document",
   "application/vnd.openxmlformats-officedocument.presentationml.presentation",
   "application/vnd.openxmlformats-officedocument.spreadsheetml.sheet",
   "text/html", "application/xml", "text/xml", "application/rtf"]

/-- The extension allow-list (identical in both variants). -/
def ALLOWED_EXT : List String :=
  [".txt", ".md", ".csv", ".tsv", ".json", ".pdf", ".docx", ".pptx",
   ".xlsx", ".html", ".xml", ".rtf"]

/-- The suffix of a filename from its last dot, inclusive
(`filename.slice(filename.lastIndexOf("."))` when the index is `>= 0`). -/
def lastDotSuffix : List Char → Option (List Char)
  | [] => none
  | c :: rest =>
    match lastDotSuffix rest with
    | some suf => some suf
    | none => if c = '.' then some (c :: rest) else none

/-- The shared extension test: `dot >= 0 && ALLOWED_EXT.has(
filename.slice(dot).toLowerCase())`. -/
def extAllowedOf (filename : String) : Bool :=
  match lastDotSuffix filename.data with
  | some suf => ALLOWED_EXT.contains (String.mk (suf.map Char.toLower))
  | none => false

/-- ASCII whitespace as trimmed by JS `String.prototype.trim` (the
declared media types in play contain no non-ASCII whitespace). -/
def isJsWs (c : Char) : Bool :=
  c == ' ' || c == '\t' || c == '\n' || c == '\r' ||
    c == Char.ofNat 11 || c == Char.ofNat 12

/-- JS `(type || "").trim()`: strip leading and trailing whitespace. -/
def jsTrim (s : String) : String :=
  String.mk (((s.data.dropWhile isJsWs).reverse.dropWhile isJsWs).reverse)

/-- `isAllowed` of the server-mediated variant (lines 338-343): a truthy
type in the MIME list, else the extension test, else false. There is no
fallback for an empty or generic declared type. -/
def isAllowedV1 (type : String) (filename : String) : Bool :=
  if (type != "") && ALLOWED_MIME.contains type then true
  else extAllowedOf filename

/-- `isAllowed` of the presigned variant (lines 653-667): trimmed type in
the MIME list, else the extension test, else accept when the trimmed
type is empty or `application/octet-stream`, else false. -/
def isAllowedV2 (type : Option String) (filename : Option String) : Bool :=
  let t := jsTrim (type.getD "")
  if (t != "") && ALLOWED_MIME.contains t then true
  else
    let name := filename.getD ""
    if extAllowedOf name then true
    else if (t == "") || (t == "application/octet-stream") then true
    else false

/-- Follows claim C5's words, not the source: a file is allowed iff its
declared type is in the MIME list, or its extension is in the extension
list, or its declared type is empty or generic. Compared against both
`isAllowedV1` and `isAllowedV2`. -/
def specIsAllowedStated (type : String) (filename : String) : Bool :=
  ALLOWED_MIME.contains type || extAllowedOf filename ||
    (type == "") || (type == "application/octet-stream")

/-- `String(b)` for a JS boolean. -/
def toJsBool (b : Bool) : String :=
  if b then "true" else "false"

/-- A record of one stored file as returned by `/api/upload`. -/
structure UploadedInfo where
  key : String
  name : String
  size : Nat
  type : Option String
  pinned : Bool
deriving DecidableEq, Repr

/-- Responses of `POST /api/upload` (server-mediated variant). The
`instanceof File` check (400 "Malformed form data.") is not modelled:
every entry of the embedded batch is a file declaration. -/
inductive UploadResult where
  | noFiles
  | tooMany
  | unsupported (type : Option String) (name : String)
  | quotaFull (used : Int)
  | ok (results : List UploadedInfo)
deriving DecidableEq, Repr

/-- The per-file write loop of `handleUpload` (lines 408-432): for the
`i`-th file, store it under `uuid i ++ "/" ++ (name || "file")` with
`pinned`/`last_accessed` metadata, then bump the counter by its size. -/
def uploadLoop (uuid : Nat → String) (nowIso : String) (pin : Bool) :
    Nat → List FileDecl → GwState → List UploadedInfo × GwState
  | _, [], st => ([], st)
  | i, f :: rest, st =>
    let key := uuid i ++ "/" ++ (if f.name == "" then "file" else f.name)
    let obj : R2Object :=
      { size := f.size, pinned := some (toJsBool pin), last_accessed := some nowIso,
        uploaded := some nowIso, contentType := f.type }
    let st1 := bumpUsedBytes { st with files := r2put key obj st.files } f.size
    let r := uploadLoop uuid nowIso pin (i + 1) rest st1
    ({ key := key, name := f.name, size := f.size, type := f.type, pinned := pin } :: r.1, r.2)

/-- `handleUpload` (server-mediated variant, lines 362-435): empty-batch
and batch-count checks, per-file type validation (`entry.type || ""`,
`entry.name || ""`), then the quota gate
`used + batchBytes >= BYTES_LIMIT`, then the write loop. -/
def handleUpload (s : GwState) (files : List FileDecl) (pin : Bool)
    (uuid : Nat → String) (nowIso : String) : UploadResult × GwState :=
  if files.length = 0 then (.noFiles, s)
  else if files.length > MAX_FILES_PER_BATCH then (.tooMany, s)
  else
    match files.find? (fun f => !isAllowedV1 (f.type.getD "") f.name) with
    | some f => (.unsupported f.type f.name, s)
    | none =>
      let batchBytes := batchSum files
      let used := (getUsedBytes s).1
      let s1 := (getUsedBytes s).2
      if used + batchBytes ≥ BYTES_LIMIT then (.quotaFull used, s1)
      else
        let r := uploadLoop uuid nowIso pin 0 files s1
        (.ok r.1, r.2)

/-- One entry of the `/api/upload-urls` response. -/
structure Upload where
  key : String
  url : String
  name : String
  size : Nat
  type : Option String
deriving DecidableEq, Repr

/-- Responses of `POST /api/upload-urls` (presigned variant). -/
inductive UrlsResult where
  | noFiles
  | tooMany
  | unsupported (name : String)
  | quotaFull (used : Int)
  | notConfigured
  | ok (uploads : List Upload) (pin : Bool)
deriving DecidableEq, Repr

/-- The R2 credential bundle of the presigned variant; `none` models any
of `R2_ACCESS_KEY_ID`, `R2_SECRET_ACCESS_KEY`, `R2_ACCOUNT_ID` being
absent or empty (the router's falsiness check, line 847). -/
structure R2Creds where
  accessKeyId : String
  secretAccessKey : String
  accountId : String
  bucket : Option String
deriving DecidableEq, Repr

/-- The `/api/upload-urls` route of the presigned variant (lines
809-874): batch checks, per-file `isAllowed(f.type, f.name)`, the quota
gate `used + total >= BYTES_LIMIT`, the credential check, then one
presigned URL per file (`presignF` stands for `presignPutUrl` applied to
the generated key) and the `pending:*` KV snapshot. -/
def handleUploadUrls (s : GwState) (files : List FileDecl) (pin : Bool)
    (creds : Option R2Creds) (presignF : String → String) (uuid : Nat → String) :
    UrlsResult × GwState :=
  if files.length = 0 then (.noFiles, s)
  else if files.length > MAX_FILES_PER_BATCH then (.tooMany, s)
  else
    match files.find? (fun f => !isAllowedV2 f.type (some f.name)) with
    | some f => (.unsupported f.name, s)
    | none =>
      let total := batchSum files
      let used := (getUsedBytes s).1
      let s1 := (getUsedBytes s).2
      if used + total ≥ BYTES_LIMIT then (.quotaFull used, s1)
      else
        match creds with
        | none => (.notConfigured, s1)
        | some _ =>
          let uploads := files.mapIdx (fun i f =>
            { key := uuid i ++ "/" ++ f.name, url := presignF (uuid i ++ "/" ++ f.name),
              name := f.name, size := f.size, type := f.type : Upload })
          let s2 := { s1 with pending := some (pin, uploads.map (fun u => (u.key, u.size))) }
          (.ok uploads pin, s2)

/-- Responses of `POST /api/confirm`. -/
inductive ConfirmResult where
  | noKeys
  | ok (updated : Nat) (totalBytes : Int)
deriving DecidableEq, Repr

/-- The per-key loop of `/api/confirm` (lines 889-906): skip keys whose
`head` is absent; otherwise add the head's size to the running total and
rewrite the object with `pinned := String(Boolean(pin))`,
`last_accessed := nowISO()` merged over its metadata (the payload and
hence the size are unchanged; the rewrite refreshes the store's upload
time). Returns `(updated, total, files)`. -/
def confirmLoop (pin : Bool) (nowIso : String) :
    List String → List (String × R2Object) → Nat × Int × List (String × R2Object)
  | [], files => (0, 0, files)
  | k :: rest, files =>
    match r2get k files with
    | none => confirmLoop pin nowIso rest files
    | some head =>
      let files' := r2put k
        { head with pinned := some (toJsBool pin), last_accessed := some nowIso,
                    uploaded := some nowIso } files
      let r := confirmLoop pin nowIso rest files'
      (r.1 + 1, r.2.1 + (head.size : Int), r.2.2)

/-- The `/api/confirm` route (lines 878-908): empty key list is a 400,
otherwise run the loop and, when the accumulated total is nonzero, bump
the counter by it once. -/
def handleConfirm (s : GwState) (keys : List String) (pin : Bool) (nowIso : String) :
    ConfirmResult × GwState :=
  if keys = [] then (.noKeys, s)
  else
    let r := confirmLoop pin nowIso keys s.files
    let s' := { s with files := r.2.2 }
    (.ok r.1 r.2.1, if r.2.1 ≠ 0 then bumpUsedBytes s' r.2.1 else s')

/-- Responses of `DELETE /api/files/:key`. -/
inductive DeleteResult where
  | notFound
  | ok
deriving DecidableEq, Repr

/-- `DELETE /api/files/:key` (presigned variant lines 913-920,
`handleDelete` lines 476-484): 404 when the head is absent, otherwise
delete the object and bump the counter by `-head.size`. -/
def handleDelete (s : GwState) (key : String) : DeleteResult × GwState :=
  match r2get key s.files with
  | none => (.notFound, s)
  | some head => (.ok, bumpUsedBytes { s with files := r2erase key s.files } (-(head.size : Int)))

/-- The JS string fallback `a || b`: an absent or empty string falls
through to the default. -/
def jsOr (a : Option String) (b : String) : String :=
  match a with
  | some s => if s = "" then b else s
  | none => b

/-- Sweep eligibility (lines 948-950): `pinned` protects only when the
metadata is exactly `"true"`; the timestamp tested is
`Date.parse(last_accessed || uploaded?.toString() || "")` (`parse`
injects `Date.parse`, returning `none` for NaN; `Date.parse("")` is
NaN); a finite timestamp must be strictly below the cutoff, a
non-finite one makes the object eligible. -/
def eligible (parse : String → Option Int) (cutoff : Int) (o : R2Object) : Bool :=
  let pinned := o.pinned == some "true"
  let last := parse (jsOr o.last_accessed (jsOr o.uploaded ""))
  !pinned && (match last with
    | some t => decide (t < cutoff)
    | none => true)

/-- Follows claim C2's words, not the source: an object is
sweep-eligible iff its pinned metadata is not `"true"` and its
`last_accessed` metadata either parses strictly older than the cutoff or
is absent/unparsable (missing metadata is not a protection). Compared
against `eligible`. -/
def specSweepEligible (parse : String → Option Int) (cutoff : Int) (o : R2Object) : Bool :=
  (!(o.pinned == some "true")) &&
    (match o.last_accessed with
     | some s =>
       match parse s with
       | some t => decide (t < cutoff)
       | none => true
     | none => true)

/-- Responses of `GET /__scheduled`. -/
inductive CleanupResult where
  | forbidden
  | swept (deleted : Nat) (freedBytes : Int)
deriving DecidableEq, Repr

/-- The sweep's per-object loop (lines 945-957, failure-free): delete
each eligible object, counting deletions and summing freed bytes.
Returns `(deleted, freed, survivors)`. -/
def cleanupLoop (elig : String × R2Object → Bool) :
    List (String × R2Object) → Nat × Int × List (String × R2Object)
  | [] => (0, 0, [])
  | o :: rest =>
    let r := cleanupLoop elig rest
    if elig o then (r.1 + 1, r.2.1 + (o.2.size : Int), r.2.2)
    else (r.1, r.2.1, o :: r.2.2)

/-- `GET /__scheduled?token=...` (presigned variant lines 939-959,
`handleCleanup` lines 486-513): 403 unless the token is `"cron"`;
otherwise sweep with cutoff `now - ONE_WEEK_MS` and, when any bytes were
freed, bump the counter once by their negation. -/
def handleCleanup (parse : String → Option Int) (nowMs : Int) (s : GwState)
    (token : Option String) : CleanupResult × GwState :=
  if token ≠ some "cron" then (.forbidden, s)
  else
    let r := cleanupLoop (fun p => eligible parse (nowMs - ONE_WEEK_MS) p.2) s.files
    let s' := { s with files := r.2.2 }
    (.swept r.1 r.2.1, if r.2.1 ≠ 0 then bumpUsedBytes s' (-r.2.1) else s')

/-- The sweep loop with a fallible `FILES.delete` (`failing` marks keys
whose delete throws). The loop body has no try/catch, so a throw
propagates: already-performed deletions persist, the current object and
every later object stay untouched, and the error carries the bucket
contents at that point. Accumulators: deletions, freed bytes, survivors
so far (reversed). -/
def cleanupLoopF (elig : String × R2Object → Bool) (failing : String → Bool) :
    List (String × R2Object) → Nat → Int → List (String × R2Object) →
    Except (List (String × R2Object)) (Nat × Int × List (String × R2Object))
  | [], d, f, kept => .ok (d, f, kept.reverse)
  | o :: rest, d, f, kept =>
    if elig o then
      if failing o.1 then .error (kept.reverse ++ o :: rest)
      else cleanupLoopF elig failing rest (d + 1) (f + (o.2.size : Int)) kept
    else cleanupLoopF elig failing rest d f (o :: kept)

/-- `GET /__scheduled` with a fallible delete: a throw inside the loop
escapes `handleCleanup` before the final `bumpUsedBytes`, so the error
state keeps the original counter cell. -/
def handleCleanupF (parse : String → Option Int) (nowMs : Int) (failing : String → Bool)
    (s : GwState) (token : Option String) : Except GwState (CleanupResult × GwState) :=
  if token ≠ some "cron" then .ok (.forbidden, s)
  else
    match cleanupLoopF (fun p => eligible parse (nowMs - ONE_WEEK_MS) p.2) failing s.files 0 0 [] with
    | .ok (d, f, kept) =>
      let s' := { s with files := kept }
      .ok (.swept d f, if f ≠ 0 then bumpUsedBytes s' (-f) else s')
    | .error fs => .error { s with files := fs }

/-- The `/api/confirm` loop with a fallible `FILES.put` (`failingPut`
marks keys whose metadata rewrite throws). No try/catch: a throw aborts
the loop, and the error carries the bucket contents at that point. -/
def confirmLoopF (pin : Bool) (nowIso : String) (failingPut : String → Bool) :
    List String → List (String × R2Object) →
    Except (List (String × R2Object)) (Nat × Int × List (String × R2Object))
  | [], files => .ok (0, 0, files)
  | k :: rest, files =>
    match r2get k files with
    | none => confirmLoopF pin nowIso failingPut rest files
    | some head =>
      if failingPut k then .error files
      else
        let files' := r2put k
          { head with pinned := some (toJsBool pin), last_accessed := some nowIso,
                      uploaded := some nowIso } files
        match confirmLoopF pin nowIso failingPut rest files' with
        | .ok r => .ok (r.1 + 1, r.2.1 + (head.size : Int), r.2.2)
        | .error e => .error e

/-- `/api/confirm` with a fallible put: a throw inside the loop escapes
the handler before the final `bumpUsedBytes`, so the error state keeps
the original counter cell. -/
def handleConfirmF (s : GwState) (keys : List String) (pin : Bool) (nowIso : String)
    (failingPut : String → Bool) : Except GwState (ConfirmResult × GwState) :=
  if keys = [] then .ok (.noKeys, s)
  else
    match confirmLoopF pin nowIso failingPut keys s.files with
    | .ok r =>
      let s' := { s with files := r.2.2 }
      .ok (.ok r.1 r.2.1, if r.2.1 ≠ 0 then bumpUsedBytes s' r.2.1 else s')
    | .error fs => .error { s with files := fs }

/-- Derived views of the pre-state used to state the confirm claims:
whether a key's object exists. -/
def foundKey (files : List (String × R2Object)) (k : String) : Bool :=
  (r2get k files).isSome

/-- The size an `/api/confirm` head lookup contributes for one key: the
object's size when found, 0 when absent. -/
def sizeOfKey (files : List (String × R2Object)) (k : String) : Int :=
  match r2get k files with
  | some o => (o.size : Int)
  | none => 0

/-- Number of key occurrences in the list whose object exists. -/
def countFound (files : List (String × R2Object)) (keys : List String) : Nat :=
  keys.countP (foundKey files)

/-- Sum over the key list of the found objects' sizes. -/
def keysTotal (files : List (String × R2Object)) (keys : List String) : Int :=
  (keys.map (sizeOfKey files)).sum

/-- Uppercase hex digit of a value below 16. -/
def hexDigit (n : Nat) : Char :=
  if n < 10 then Char.ofNat (48 + n) else Char.ofNat (55 + n)

/-- Percent-encoding of one UTF-8 byte with a given unreserved set. -/
def pctByte (unreserved : Nat → Bool) (b : Nat) : List Char :=
  if unreserved b then [Char.ofNat b]
  else ['%', hexDigit (b / 16), hexDigit (b % 16)]

/-- Bytes `encodeURIComponent` leaves unescaped: alphanumerics and
`- _ . ! ~ * ' ( )`. -/
def uriUnreserved (b : Nat) : Bool :=
  (48 ≤ b && b ≤ 57) || (65 ≤ b && b ≤ 90) || (97 ≤ b && b ≤ 122) ||
    (b == 45) || (b == 95) || (b == 46) || (b == 33) || (b == 126) ||
    (b == 42) || (b == 39) || (b == 40) || (b == 41)

/-- JS `encodeURIComponent` over the string's UTF-8 bytes. -/
def encodeURIComponent (s : String) : String :=
  String.mk ((s.toUTF8.toList.map (fun b => pctByte uriUnreserved b.toNat)).flatten)

/-- Bytes `URLSearchParams` serialization leaves unescaped:
alphanumerics and `* - . _` (a space would become `+`; none of the
serialized values contains one). -/
def formUnreserved (b : Nat) : Bool :=
  (48 ≤ b && b ≤ 57) || (65 ≤ b && b ≤ 90) || (97 ≤ b && b ≤ 122) ||
    (b == 42) || (b == 45) || (b == 46) || (b == 95)

/-- One component of the `URLSearchParams` serialization. -/
def formEncode (s : String) : String :=
  String.mk ((s.toUTF8.toList.map (fun b =>
    if b.toNat == 32 then ['+'] else pctByte formUnreserved b.toNat)).flatten)

/-- `URLSearchParams.toString()`: `k=v` pairs in insertion order joined
by `&`, both sides form-encoded. -/
def qpToString (l : List (String × String)) : String :=
  String.intercalate "&" (l.map (fun p => formEncode p.1 ++ "=" ++ formEncode p.2))

/-- The inputs of `presignPutUrl` (lines 713-721). `amzDate` is injected
for the clock-derived `yyyymmddThhmmssZ` stamp; the datestamp is its
first eight characters (`amzDate.slice(0, 8)`). -/
structure PresignOpts where
  accountId : String
  bucket : String
  key : String
  accessKeyId : String
  secretAccessKey : String
  region : Option String
  expiresSec : Option Nat
deriving DecidableEq, Repr

/-- The query parameters of the presigned URL before the signature is
appended (lines 733-739), in insertion order. -/
def presignQp (amzDate : String) (o : PresignOpts) : List (String × String) :=
  let region := o.region.getD "auto"
  let credentialScope := amzDate.take 8 ++ "/" ++ region ++ "/s3/aws4_request"
  [("X-Amz-Algorithm", "AWS4-HMAC-SHA256"),
   ("X-Amz-Credential", o.accessKeyId ++ "/" ++ credentialScope),
   ("X-Amz-Date", amzDate),
   ("X-Amz-Expires", toString (o.expiresSec.getD 600)),
   ("X-Amz-SignedHeaders", "host")]

/-- The canonical request string (lines 740-751): method, encoded path,
serialized query, canonical headers, signed-header list, and the
`UNSIGNED-PAYLOAD` sentinel, newline-joined. -/
def canonicalRequestOf (amzDate : String) (o : PresignOpts) : String :=
  let host := o.accountId ++ ".r2.cloudflarestorage.com"
  let canonicalUri := "/" ++ o.bucket ++ "/" ++ encodeURIComponent o.key
  String.intercalate "\n"
    ["PUT", canonicalUri, qpToString (presignQp amzDate o),
     "host:" ++ host ++ "\n", "host", "UNSIGNED-PAYLOAD"]

/-- The string to sign (lines 753-758). `sha256Hex` injects the SHA-256
hex digest. -/
def stringToSignOf (sha256Hex : String → String) (amzDate : String) (o : PresignOpts) : String :=
  String.intercalate "\n"
    ["AWS4-HMAC-SHA256", amzDate,
     amzDate.take 8 ++ "/" ++ o.region.getD "auto" ++ "/s3/aws4_request",
     sha256Hex (canonicalRequestOf amzDate o)]

/-- The four-step HMAC chain and final hex signature (lines 760-764).
`hmac key msg` injects HMAC-SHA256 (raw output, reused as the next key);
`u8Hex` injects `u8ToHex`. The secret access key enters the computation
only here, as the first HMAC key, prefixed with `"AWS4"`. -/
def deriveSignature (hmac : String → String → String) (u8Hex : String → String)
    (sha256Hex : String → String) (amzDate : String) (o : PresignOpts) : String :=
  let kDate := hmac ("AWS4" ++ o.secretAccessKey) (amzDate.take 8)
  let kRegion := hmac kDate (o.region.getD "auto")
  let kService := hmac kRegion "s3"
  let kSigning := hmac kService "aws4_request"
  u8Hex (hmac kSigning (stringToSignOf sha256Hex amzDate o))

/-- `presignPutUrl` (lines 713-767): the returned URL is the host, the
encoded object path, the serialized query parameters, and the appended
`X-Amz-Signature`. -/
def presignPutUrl (hmac : String → String → String) (u8Hex : String → String)
    (sha256Hex : String → String) (amzDate : String) (o : PresignOpts) : String :=
  let host := o.accountId ++ ".r2.cloudflarestorage.com"
  let canonicalUri := "/" ++ o.bucket ++ "/" ++ encodeURIComponent o.key
  "https://" ++ host ++ canonicalUri ++ "?" ++ qpToString (presignQp amzDate o) ++
    "&X-Amz-Signature=" ++ deriveSignature hmac u8Hex sha256Hex amzDate o

/-- The non-secret inputs of `presignPutUrl`. -/
structure PresignPublic where
  accountId : String
  bucket : String
  key : String
  accessKeyId : String
  region : Option String
  expiresSec : Option Nat
deriving DecidableEq, Repr

/-- The projection of the presign inputs that drops the secret key. -/
def PresignOpts.toPublic (o : PresignOpts) : PresignPublic :=
  { accountId := o.accountId, bucket := o.bucket, key := o.key,
    accessKeyId := o.accessKeyId, region := o.region, expiresSec := o.expiresSec }

/-- Reassembly of the presigned URL from the non-secret inputs and an
already-derived signature string. This definition never receives the
secret access key. -/
def presignUrlFromSig (amzDate : String) (p : PresignPublic) (sig : String) : String :=
  let host := p.accountId ++ ".r2.cloudflarestorage.com"
  let canonicalUri := "/" ++ p.bucket ++ "/" ++ encodeURIComponent p.key
  let region := p.region.getD "auto"
  let credentialScope := amzDate.take 8 ++ "/" ++ region ++ "/s3/aws4_request"
  let qp := [("X-Amz-Algorithm", "AWS4-HMAC-SHA256"),
             ("X-Amz-Credential", p.accessKeyId ++ "/" ++ credentialScope),
             ("X-Amz-Date", amzDate),
             ("X-Amz-Expires", toString (p.expiresSec.getD 600)),
             ("X-Amz-SignedHeaders", "host")]
  "https://" ++ host ++ canonicalUri ++ "?" ++ qpToString qp ++
    "&X-Amz-Signature=" ++ sig

/-- Phases of one in-flight `bumpUsedBytes` call of the presigned
variant (lines 690-694): before its KV read, between its read and its
write (holding the value it read), or finished. -/
inductive RmwPhase where
  | idle
  | readDone (v : Int)
  | finished
deriving DecidableEq, Repr

/-- One concurrent `bumpUsedBytes(delta)` call. -/
structure RmwTask where
  delta : Int
  phase : RmwPhase
deriving DecidableEq, Repr

/-- One scheduler step of a task against the shared `used_bytes` cell:
an idle task performs its KV read; a task that has read performs its KV
write of `read value + delta` (overwriting whatever is in the cell); a
finished task does nothing. -/
def rmwStep (cell : Int) (t : RmwTask) : RmwTask × Int :=
  match t.phase with
  | .idle => ({ t with phase := .readDone cell }, cell)
  | .readDone v => ({ t with phase := .finished }, v + t.delta)
  | .finished => (t, cell)

/-- Run a schedule (a list of task indices) over concurrent
`bumpUsedBytes` calls sharing the counter cell. -/
def runSched : List Nat → List RmwTask → Int → Int × List RmwTask
  | [], tasks, cell => (cell, tasks)
  | i :: rest, tasks, cell =>
    match tasks.get? i with
    | none => runSched rest tasks cell
    | some t =>
      let p := rmwStep cell t
      runSched rest (tasks.set i p.1) p.2

/-- One `bumpUsedBytes(delta)` call run to completion without
interleaving: its read step immediately followed by its write step. -/
def runTask (cell : Int) (delta : Int) : Int :=
  let p := rmwStep cell { delta := delta, phase := .idle }
  (rmwStep p.2 p.1).2

/-- `bumpUsedBytes` of the server-mediated variant (lines 331-336): a
single atomic KV mutate of `Number(v) || 0 + delta`. -/
def bumpAtomicV1 (cell : Option Int) (delta : Int) : Option Int :=
  some (cell.getD 0 + delta)

/-- A sequence of atomic adjustments applied in some order. -/
def atomicRun (cell : Option Int) (deltas : List Int) : Option Int :=
  deltas.foldl bumpAtomicV1 cell

/-- A gateway state five bytes below the quota ceiling. -/
def c1State : GwState :=
  { files := [], cell := some (BYTES_LIMIT - 5), pending := none }

/-- A one-file batch of five declared bytes. -/
def c1Files : List FileDecl :=
  [{ name := "a.txt", size := 5, type := some "text/plain" }]

/-- A `Date.parse` model knowing one timestamp string: `"T0"` parses to
10, everything else is NaN. -/
def c2Parse (s : String) : Option Int :=
  if s = "T0" then some 10 else none

/-- An unpinned object with no `last_accessed` metadata whose
store-assigned upload time is recent (at the cutoff). -/
def c2Obj : R2Object :=
  { size := 4, pinned := none, last_accessed := none, uploaded := some "T0",
    contentType := none }

/-- A bucket holding only `c2Obj`. -/
def c2State : GwState :=
  { files := [("c", c2Obj)], cell := some 4, pending := none }

/-- A pinned, long-stale object. -/
def c2PinObj : R2Object :=
  { size := 3, pinned := some "true", last_accessed := none, uploaded := none,
    contentType := none }

/-- A bucket holding only the pinned object. -/
def c2PinState : GwState :=
  { files := [("p", c2PinObj)], cell := some 3, pending := none }

/-- A five-byte object just uploaded through a presigned PUT (counter
not yet credited). -/
def c4Obj : R2Object :=
  { size := 5, pinned := none, last_accessed := none, uploaded := none,
    contentType := none }

/-- The state before the first `/api/confirm` call. -/
def c4State : GwState :=
  { files := [("k", c4Obj)], cell := some 0, pending := none }

/-- A bucket with one object for the confirm witness. -/
def c3State : GwState :=
  { files := [("a", { size := 7, pinned := none, last_accessed := none,
                      uploaded := none, contentType := none })],
    cell := some 7, pending := none }

/-- Three concurrent `bumpUsedBytes` calls with deltas `+1, +2, -3`,
none started yet. -/
def lostTasks : List RmwTask :=
  [{ delta := 1, phase := .idle }, { delta := 2, phase := .idle },
   { delta := -3, phase := .idle }]

/-- A `Date.parse` model under which every string is NaN, so every
unpinned object is sweep-eligible. -/
def c7Parse (_ : String) : Option Int :=
  none

/-- Sweep-eligible objects of sizes 1, 2 and 4. -/
def c7A : R2Object :=
  { size := 1, pinned := none, last_accessed := none, uploaded := none,
    contentType := none }

/-- Second sweep-eligible object; its delete throws. -/
def c7B : R2Object :=
  { size := 2, pinned := none, last_accessed := none, uploaded := none,
    contentType := none }

/-- Third sweep-eligible object, enumerated after the failing one. -/
def c7C : R2Object :=
  { size := 4, pinned := none, last_accessed := none, uploaded := none,
    contentType := none }

/-- A bucket holding the three objects, counter in sync. -/
def c7State : GwState :=
  { files := [("a", c7A), ("b", c7B), ("c", c7C)], cell := some 7, pending := none }

/-- The delete of key `"b"` throws. -/
def c7Failing (k : String) : Bool :=
  k == "b"

/-- A bucket with one confirmable object. -/
def c7ConfState : GwState :=
  { files := [("x", { size := 3, pinned := none, last_accessed := none,
                      uploaded := none, contentType := none })],
    cell := some 0, pending := none }

/-- The metadata rewrite of key `"x"` throws. -/
def c7FailPut (k : String) : Bool :=
  k == "x"

/-- A bucket with one four-byte object for the delete witness. -/
def c8State : GwState :=
  { files := [("k", { size := 4, pinned := none, last_accessed := none,
                      uploaded := none, contentType := none })],
    cell := some 10, pending := none }

/-- A constant stand-in for HMAC-SHA256 in the presign witness. -/
def c9Hmac (_ _ : String) : String :=
  "m"

/-- A constant stand-in for `u8ToHex` in the presign witness. -/
def c9Hex (_ : String) : String :=
  "h"

/-- A constant stand-in for `sha256Hex` in the presign witness. -/
def c9Sha (_ : String) : String :=
  "s"

/-- Concrete presign inputs. -/
def c9Opts : PresignOpts :=
  { accountId := "acct", bucket := "felicity-files", key := "u/a.txt",
    accessKeyId := "AKID", secretAccessKey := "SECRETKEY",
    region := none, expiresSec := none }

theorem r2get_r2put (k k' : String) (o : R2Object) :
    ∀ l, r2get k' (r2put k o l) = if k' = k then some o else r2get k' l := by
  intro l
  induction l with
  | nil => simp [r2get, r2put]
  | cons p rest ih =>
    obtain ⟨k0, o0⟩ := p
    by_cases h0 : k = k0
    · subst h0
      by_cases h1 : k' = k <;> simp [r2get, r2put, h1]
    · by_cases h1 : k' = k0 <;> simp [r2get, r2put, h0, h1, ih, Ne.symm h0]

theorem r2get_eq_none_of_not_mem (k : String) :
    ∀ l : List (String × R2Object), k ∉ l.map Prod.fst → r2get k l = none := by
  intro l
  induction l with
  | nil => intro; rfl
  | cons p rest ih =>
    intro h
    have h1 : ¬ k = p.1 := fun he => h (by simp [he])
    have h2 : k ∉ rest.map Prod.fst := fun hm => h (by simp [hm])
    simpa [r2get, h1] using ih h2

theorem r2get_r2erase_self (k : String) :
    ∀ l : List (String × R2Object), (l.map Prod.fst).Nodup →
      r2get k (r2erase k l) = none := by
  intro l
  induction l with
  | nil => intro; rfl
  | cons p rest ih =>
    intro hnd
    have hnd2 : (p.1 :: List.map Prod.fst rest).Nodup := by
      simpa only [List.map_cons] using hnd
    have hnm : p.1 ∉ List.map Prod.fst rest := (List.nodup_cons.mp hnd2).1
    have hrest : (List.map Prod.fst rest).Nodup := (List.nodup_cons.mp hnd2).2
    by_cases h0 : k = p.1
    · subst h0
      simpa [r2erase] using r2get_eq_none_of_not_mem p.1 rest hnm
    · simpa [r2erase, r2get, h0] using ih hrest

theorem r2get_r2erase_other (k k' : String) (hk : k' ≠ k) :
    ∀ l : List (String × R2Object), r2get k' (r2erase k l) = r2get k' l := by
  intro l
  induction l with
  | nil => rfl
  | cons p rest ih =>
    by_cases h0 : k = p.1
    · subst h0
      simp [r2erase, r2get, hk]
    · by_cases h1 : k' = p.1 <;> simp [r2erase, r2get, h0, h1, ih]

theorem cellVal_bump (s : GwState) (d : Int) : cellVal (bumpUsedBytes s d) = cellVal s + d := rfl

theorem bump_files (s : GwState) (d : Int) : (bumpUsedBytes s d).files = s.files := rfl

theorem getUsedBytes_files (s : GwState) : (getUsedBytes s).2.files = s.files := by
  cases h : s.cell <;> simp [getUsedBytes, h]

theorem getUsedBytes_pending (s : GwState) : (getUsedBytes s).2.pending = s.pending := by
  cases h : s.cell <;> simp [getUsedBytes, h]

theorem getUsedBytes_stable (s : GwState) :
    (getUsedBytes (getUsedBytes s).2).1 = (getUsedBytes s).1 := by
  cases h : s.cell <;> simp [getUsedBytes, h]

theorem sizeview_isSome {a b : Option R2Object}
    (h : a.map R2Object.size = b.map R2Object.size) : a.isSome = b.isSome := by
  cases a <;> cases b <;> simp_all

theorem confirmLoop_spec (pin : Bool) (nowIso : String) :
    ∀ (keys : List String) (files : List (String × R2Object)),
      (confirmLoop pin nowIso keys files).1 = countFound files keys
      ∧ (confirmLoop pin nowIso keys files).2.1 = keysTotal files keys
      ∧ ∀ k, (r2get k (confirmLoop pin nowIso keys files).2.2).map R2Object.size
              = (r2get k files).map R2Object.size := by
  intro keys
  induction keys with
  | nil =>
    intro files
    refine ⟨rfl, ?_, fun k => rfl⟩
    simp [confirmLoop, keysTotal]
  | cons k0 rest ih =>
    intro files
    cases hg : r2get k0 files with
    | none =>
      have hf : foundKey files k0 = false := by simp [foundKey, hg]
      obtain ⟨ih1, ih2, ih3⟩ := ih files
      refine ⟨?_, ?_, ?_⟩
      · simp [confirmLoop, hg, ih1, countFound, List.countP_cons, hf]
      · simp [confirmLoop, hg, ih2, keysTotal, sizeOfKey, hg]
      · intro k
        simpa [confirmLoop, hg] using ih3 k
    | some head =>
      have hf : foundKey files k0 = true := by simp [foundKey, hg]
      set newObj : R2Object :=
        { head with pinned := some (toJsBool pin), last_accessed := some nowIso,
                    uploaded := some nowIso } with hnew
      set files' := r2put k0 newObj files with hfiles'
      have hview : ∀ k, (r2get k files').map R2Object.size
          = (r2get k files).map R2Object.size := by
        intro k
        rw [hfiles', r2get_r2put]
        by_cases hkk : k = k0
        · simp [hkk, hg, hnew]
        · simp [hkk]
      have hfoundEq : foundKey files' = foundKey files :=
        funext fun k => by simpa [foundKey] using sizeview_isSome (hview k)
      have hsizeEq : sizeOfKey files' = sizeOfKey files := by
        funext k
        have := hview k
        unfold sizeOfKey
        cases ha : r2get k files' <;> cases hb : r2get k files <;> simp_all
      obtain ⟨ih1, ih2, ih3⟩ := ih files'
      refine ⟨?_, ?_, ?_⟩
      · simp [confirmLoop, hg, ih1, countFound, List.countP_cons, hf, hfoundEq]
      · have h1 : (confirmLoop pin nowIso (k0 :: rest) files).2.1
            = keysTotal files' rest + (head.size : Int) := by
          simp [confirmLoop, hg, ih2]
        have hkt : keysTotal files' rest = keysTotal files rest := by
          rw [keysTotal, keysTotal, hsizeEq]
        have h2 : keysTotal files (k0 :: rest) = (head.size : Int) + keysTotal files rest := by
          simp [keysTotal, sizeOfKey, hg]
        rw [h1, hkt, h2]
        ring
      · intro k
        have h1 : (r2get k (confirmLoop pin nowIso (k0 :: rest) files).2.2).map R2Object.size
            = (r2get k (confirmLoop pin nowIso rest files').2.2).map R2Object.size := by
          simp [confirmLoop, hg]
        rw [h1, ih3 k, hview k]

theorem confirm_view (s : GwState) (keys : List String) (pin : Bool) (nowIso : String) :
    ∀ k, (r2get k (handleConfirm s keys pin nowIso).2.files).map R2Object.size
          = (r2get k s.files).map R2Object.size := by
  intro k
  by_cases hk : keys = []
  · simp [handleConfirm, hk]
  · have h3 := (confirmLoop_spec pin nowIso keys s.files).2.2 k
    by_cases ht : (confirmLoop pin nowIso keys s.files).2.1 ≠ 0 <;>
      simpa [handleConfirm, hk, ht, bumpUsedBytes] using h3

theorem countFound_congr {a b : List (String × R2Object)}
    (h : ∀ k, (r2get k a).map R2Object.size = (r2get k b).map R2Object.size) :
    countFound a = countFound b := by
  have hf : foundKey a = foundKey b :=
    funext fun k => by simpa [foundKey] using sizeview_isSome (h k)
  funext keys
  rw [countFound, countFound, hf]

theorem keysTotal_congr {a b : List (String × R2Object)}
    (h : ∀ k, (r2get k a).map R2Object.size = (r2get k b).map R2Object.size) :
    keysTotal a = keysTotal b := by
  have hs : sizeOfKey a = sizeOfKey b := by
    funext k
    have := h k
    unfold sizeOfKey
    cases ha : r2get k a <;> cases hb : r2get k b <;> simp_all
  funext keys
  rw [keysTotal, keysTotal, hs]

theorem cleanupLoop_spec (elig : String × R2Object → Bool) :
    ∀ l, cleanupLoop elig l
      = (l.countP elig, sumSizes (l.filter elig), l.filter (fun p => !elig p)) := by
  intro l
  induction l with
  | nil => simp [cleanupLoop, sumSizes]
  | cons o rest ih =>
    cases he : elig o
    · simp [cleanupLoop, ih, he, List.countP_cons]
    · simp [cleanupLoop, ih, he, List.countP_cons, sumSizes, Int.add_comm]

theorem cleanupLoopF_error (elig : String × R2Object → Bool) (failing : String → Bool)
    (o : String × R2Object) (post : List (String × R2Object))
    (ho : elig o = true) (hf : failing o.1 = true) :
    ∀ (pre : List (String × R2Object)) (d : Nat) (f : Int) (kept : List (String × R2Object)),
      (∀ p ∈ pre, elig p = true → failing p.1 = false) →
      cleanupLoopF elig failing (pre ++ o :: post) d f kept
        = .error (kept.reverse ++ pre.filter (fun p => !elig p) ++ o :: post) := by
  intro pre
  induction pre with
  | nil =>
    intro d f kept hpre
    simp [cleanupLoopF, ho, hf]
  | cons p pre ih =>
    intro d f kept hpre
    have hpre' : ∀ q ∈ pre, elig q = true → failing q.1 = false :=
      fun q hq => hpre q (List.mem_cons_of_mem _ hq)
    rw [List.cons_append]
    cases hp : elig p
    · rw [show cleanupLoopF elig failing (p :: (pre ++ o :: post)) d f kept
            = cleanupLoopF elig failing (pre ++ o :: post) d f (p :: kept) from by
          simp [cleanupLoopF, hp]]
      rw [ih d f (p :: kept) hpre']
      simp [List.filter_cons, hp, List.append_assoc]
    · have hnf : failing p.1 = false := hpre p (List.mem_cons_self p pre) hp
      rw [show cleanupLoopF elig failing (p :: (pre ++ o :: post)) d f kept
            = cleanupLoopF elig failing (pre ++ o :: post) (d + 1) (f + (p.2.size : Int)) kept from by
          simp [cleanupLoopF, hp, hnf]]
      rw [ih (d + 1) (f + (p.2.size : Int)) kept hpre']
      simp [List.filter_cons, hp]

theorem confirmLoopF_error (pin : Bool) (nowIso : String) (failingPut : String → Bool) :
    ∀ (keys : List String) (files : List (String × R2Object)),
      (∃ k ∈ keys, foundKey files k = true ∧ failingPut k = true) →
      ∃ fs, confirmLoopF pin nowIso failingPut keys files = .error fs := by
  intro keys
  induction keys with
  | nil =>
    rintro files ⟨k, hk, -⟩
    cases hk
  | cons k0 rest ih =>
    rintro files ⟨k, hk, hfound, hfail⟩
    cases hg : r2get k0 files with
    | none =>
      rcases List.mem_cons.mp hk with h | h
      · subst h
        rw [foundKey, hg] at hfound
        cases hfound
      · obtain ⟨fs, hfs⟩ := ih files ⟨k, h, hfound, hfail⟩
        exact ⟨fs, by simp [confirmLoopF, hg, hfs]⟩
    | some head =>
      cases hfp : failingPut k0
      · have hne : k ≠ k0 := fun he => by rw [he, hfp] at hfail; cases hfail
        have hkrest : k ∈ rest := by
          rcases List.mem_cons.mp hk with h | h
          · exact absurd h hne
          · exact h
        set files' := r2put k0
          { head with pinned := some (toJsBool pin), last_accessed := some nowIso,
                      uploaded := some nowIso } files with hfiles'
        have hfound' : foundKey files' k = true := by
          rw [foundKey, hfiles', r2get_r2put, if_neg hne]
          exact hfound
        obtain ⟨fs, hfs⟩ := ih files' ⟨k, hkrest, hfound', hfail⟩
        refine ⟨fs, ?_⟩
        simp [confirmLoopF, hg, hfp, ← hfiles', hfs]
      · exact ⟨files, by simp [confirmLoopF, hg, hfp]⟩

theorem atomicRun_eq (ds : List Int) :
    ∀ c : Int, atomicRun (some c) ds = some (c + ds.sum) := by
  induction ds with
  | nil => intro c; simp [atomicRun]
  | cons d ds ih =>
    intro c
    have h1 : atomicRun (some c) (d :: ds) = atomicRun (some (c + d)) ds := rfl
    rw [h1, ih (c + d)]
    simp [Int.add_assoc]

theorem runTask_eq (c d : Int) : runTask c d = c + d := rfl

theorem handleConfirm_spec (s : GwState) (keys : List String) (pin : Bool) (nowIso : String)
    (h : keys ≠ []) :
    (handleConfirm s keys pin nowIso).1
        = .ok (countFound s.files keys) (keysTotal s.files keys)
    ∧ cellVal (handleConfirm s keys pin nowIso).2 = cellVal s + keysTotal s.files keys := by
  obtain ⟨h1, h2, h3⟩ := confirmLoop_spec pin nowIso keys s.files
  constructor
  · simp [handleConfirm, h, h1, h2]
  · by_cases ht : (confirmLoop pin nowIso keys s.files).2.1 ≠ 0
    · rw [← h2]
      simp [handleConfirm, h, ht, bumpUsedBytes, cellVal]
    · have ht0 : (confirmLoop pin nowIso keys s.files).2.1 = 0 := not_not.mp ht
      rw [← h2, ht0]
      simp [handleConfirm, h, ht0, cellVal]

theorem foldl_runTask (ds : List Int) :
    ∀ c : Int, ds.foldl runTask c = c + ds.sum := by
  induction ds with
  | nil => intro c; simp
  | cons d ds ih =>
    intro c
    simp only [List.foldl_cons, runTask_eq, ih (c + d), List.sum_cons]
    ring

/-- C5 (corrected): the two `isAllowed` variants do not implement the
same predicate. At declared type `""` and filename `"file"` the claimed
predicate (MIME hit, or extension hit, or empty/generic type) accepts,
and the presigned variant accepts, but the server-mediated variant
rejects: it has no empty/generic-type fallback. -/
theorem isAllowed_c5_counterexample :
    isAllowedV1 "" "file" = false
    ∧ specIsAllowedStated "" "file" = true
    ∧ isAllowedV2 (some "") (some "file") = true := by
  decide

/-- C5 (amended): the presigned variant's `isAllowed` accepts exactly
when the trimmed declared type is in the MIME allow-list, or the
filename extension is in the extension allow-list, or the trimmed type
is empty or `application/octet-stream`; the server-mediated variant's
`isAllowed` accepts exactly when the declared type is in the MIME
allow-list or the extension is in the extension allow-list, with no
empty/generic fallback. -/
theorem isAllowed_variants_c5 (t name : String) :
    isAllowedV2 (some t) (some name)
        = (ALLOWED_MIME.contains (jsTrim t) || extAllowedOf name
            || (jsTrim t == "") || (jsTrim t == "application/octet-stream"))
    ∧ isAllowedV1 t name = (ALLOWED_MIME.contains t || extAllowedOf name) := by
  have key2 : ∀ (a b c d : Bool),
      (if (!c) && a then true else if b then true else if c || d then true else false)
        = (a || b || c || d) := by decide
  have key1 : ∀ (a b c : Bool), (c = true → a = false) →
      (if (!c) && a then true else b) = (a || b) := by
    intro a b c h
    cases a <;> cases b <;> cases c <;> simp_all
  constructor
  · exact key2 (ALLOWED_MIME.contains (jsTrim t)) (extAllowedOf name)
      (jsTrim t == "") (jsTrim t == "application/octet-stream")
  · refine key1 (ALLOWED_MIME.contains t) (extAllowedOf name) (t == "") ?_
    intro hce
    have ht : t = "" := eq_of_beq hce
    subst ht
    rfl

/-- C6 (corrected): an interleaving of the presigned variant's
read-then-write `bumpUsedBytes` calls loses updates. With the counter
at 0 and three concurrent calls of deltas `+1, +2, -3`, the schedule
that performs all three KV reads before the three KV writes completes
every call yet leaves the counter at `-3`, not at the algebraic sum
`0`. -/
theorem adjust_c6_counterexample :
    (runSched [0, 1, 2, 0, 1, 2] lostTasks 0).1 = -3
    ∧ (runSched [0, 1, 2, 0, 1, 2] lostTasks 0).2
        = [{ delta := 1, phase := .finished }, { delta := 2, phase := .finished },
           { delta := -3, phase := .finished }]
    ∧ (0 : Int) + ([1, 2, -3] : List Int).sum = 0
    ∧ ((-3 : Int) ≠ 0) := by
  decide

/-- C6 (amended): the server-mediated variant's atomic
mutate-and-commit counter preserves the algebraic sum over any sequence
of adjustments, and the presigned variant's read-then-write
`bumpUsedBytes` also preserves it when the calls are applied
sequentially (each call's read and write complete before the next call
starts); only concurrent interleavings of the latter lose updates. -/
theorem counter_adjust_c6 (c : Int) (ds : List Int) :
    (atomicRun (some c) ds).getD 0 = c + ds.sum
    ∧ ds.foldl runTask c = c + ds.sum := by
  refine ⟨?_, foldl_runTask ds c⟩
  rw [atomicRun_eq ds c]
  rfl

/-- C9 (confirmed): the URL returned by `presignPutUrl` factors through
`presignUrlFromSig`, which receives only the non-secret inputs and the
derived HMAC signature — the query string carries only the algorithm
id, the credential scope with the access key id, the timestamp, the
expiry window, the signed-header list and the signature, and the
long-term secret enters only as the key of the first HMAC in the
signature derivation; consequently two calls differing only in the
secret produce identical URLs whenever they derive the same
signature. -/
theorem presign_no_secret_c9 (hmac : String → String → String)
    (u8Hex sha256Hex : String → String) (amzDate : String) (o : PresignOpts) :
    presignPutUrl hmac u8Hex sha256Hex amzDate o
        = presignUrlFromSig amzDate o.toPublic (deriveSignature hmac u8Hex sha256Hex amzDate o)
    ∧ ∀ secret2 : String,
        deriveSignature hmac u8Hex sha256Hex amzDate { o with secretAccessKey := secret2 }
            = deriveSignature hmac u8Hex sha256Hex amzDate o →
        presignPutUrl hmac u8Hex sha256Hex amzDate { o with secretAccessKey := secret2 }
            = presignPutUrl hmac u8Hex sha256Hex amzDate o := by
  constructor
  · rfl
  · intro secret2 hsig
    calc
      presignPutUrl hmac u8Hex sha256Hex amzDate { o with secretAccessKey := secret2 }
          = presignUrlFromSig amzDate o.toPublic
              (deriveSignature hmac u8Hex sha256Hex amzDate { o with secretAccessKey := secret2 }) := rfl
      _ = presignUrlFromSig amzDate o.toPublic
              (deriveSignature hmac u8Hex sha256Hex amzDate o) := by rw [hsig]
      _ = presignPutUrl hmac u8Hex sha256Hex amzDate o := rfl

/-- Witness for C9: at concrete inputs with concrete hash stand-ins,
replacing the secret access key while the derived signature is
unchanged leaves the returned URL unchanged. -/
theorem presign_no_secret_c9_witness :
    presignPutUrl c9Hmac c9Hex c9Sha "20260101T000000Z"
        { c9Opts with secretAccessKey := "OTHERSECRET" }
      = presignPutUrl c9Hmac c9Hex c9Sha "20260101T000000Z" c9Opts :=
  (presign_no_secret_c9 c9Hmac c9Hex c9Sha "20260101T000000Z" c9Opts).2 "OTHERSECRET" rfl

/-- C10 (confirmed): when both the KV read of `used_bytes` and the
fallback R2 listing fail, `getUsedBytes` of the presigned variant
returns 0, so `/api/quota` reports zero usage with `okToUpload = true`,
and the upload-admission comparison `used + batch >= BYTES_LIMIT`
degenerates to `batch >= BYTES_LIMIT`: the quota gate fails open. -/
theorem quota_fails_open_c10 :
    getUsedBytesEx (.error ()) (.error ()) = 0
    ∧ handleQuotaEx (.error ()) (.error ()) = (0, BYTES_LIMIT, true)
    ∧ ∀ batch : Int,
        (getUsedBytesEx (.error ()) (.error ()) + batch ≥ BYTES_LIMIT
          ↔ batch ≥ BYTES_LIMIT) := by
  refine ⟨rfl, by decide, fun batch => ?_⟩
  simp [getUsedBytesEx]

/-- C2 (corrected): the sweep is not keyed on `last_accessed` alone.
The unpinned object `c2Obj` has no `last_accessed` metadata, so the
claim's eligibility predicate marks it for deletion, but the code falls
back to the store's upload timestamp, which parses to the cutoff
instant, so a sweep pass deletes nothing and leaves the bucket
unchanged. -/
theorem sweep_c2_counterexample :
    specSweepEligible c2Parse (604800010 - ONE_WEEK_MS) c2Obj = true
    ∧ c2Obj.pinned ≠ some "true"
    ∧ (handleCleanup c2Parse 604800010 c2State (some "cron")).1 = .swept 0 0
    ∧ (handleCleanup c2Parse 604800010 c2State (some "cron")).2.files = c2State.files := by
  decide

/-- C2 (amended): a sweep pass authorized by `token=cron` deletes an
enumerated object if and only if its pinned metadata is not `"true"`
and the first non-empty of its `last_accessed` metadata and its upload
timestamp either parses strictly older than `now` minus the 7-day
window or is absent/unparsable; in particular pinned objects always
survive, and the counter cell drops by exactly the sum of the deleted
objects' sizes. -/
theorem sweep_semantics_c2 (parse : String → Option Int) (now : Int) (s : GwState) :
    (handleCleanup parse now s (some "cron")).1
        = .swept (s.files.countP (fun p => eligible parse (now - ONE_WEEK_MS) p.2))
            (sumSizes (s.files.filter (fun p => eligible parse (now - ONE_WEEK_MS) p.2)))
    ∧ (handleCleanup parse now s (some "cron")).2.files
        = s.files.filter (fun p => !eligible parse (now - ONE_WEEK_MS) p.2)
    ∧ cellVal (handleCleanup parse now s (some "cron")).2
        = cellVal s - sumSizes (s.files.filter (fun p => eligible parse (now - ONE_WEEK_MS) p.2))
    ∧ ∀ p ∈ s.files, p.2.pinned = some "true" →
        p ∈ (handleCleanup parse now s (some "cron")).2.files := by
  have hloop := cleanupLoop_spec (fun p => eligible parse (now - ONE_WEEK_MS) p.2) s.files
  have hfiles : (handleCleanup parse now s (some "cron")).2.files
      = s.files.filter (fun p => !eligible parse (now - ONE_WEEK_MS) p.2) := by
    by_cases hz : sumSizes (s.files.filter (fun p => eligible parse (now - ONE_WEEK_MS) p.2)) ≠ 0 <;>
      simp [handleCleanup, hloop, hz, bumpUsedBytes]
  refine ⟨?_, hfiles, ?_, ?_⟩
  · simp [handleCleanup, hloop]
  · by_cases hz : sumSizes (s.files.filter (fun p => eligible parse (now - ONE_WEEK_MS) p.2)) ≠ 0
    · simp only [handleCleanup, hloop]
      simp [hz, bumpUsedBytes, cellVal]
      omega
    · have hz0 : sumSizes (s.files.filter (fun p => eligible parse (now - ONE_WEEK_MS) p.2)) = 0 :=
        not_not.mp hz
      simp only [handleCleanup, hloop]
      simp [hz0, cellVal]
  · intro p hp hpin
    rw [hfiles]
    refine List.mem_filter.mpr ⟨hp, ?_⟩
    simp [eligible, hpin]

/-- C3 (confirmed): a non-empty `/api/confirm` succeeds, silently
skipping keys with no stored object (they stay absent and contribute
nothing); the reported `totalBytes` is the sum of the sizes of the
objects actually found, `updated` counts the found keys, and the
counter cell rises by exactly that sum. -/
theorem confirm_totals_c3 (s : GwState) (keys : List String) (pin : Bool) (nowIso : String)
    (h : keys ≠ []) :
    (handleConfirm s keys pin nowIso).1
        = .ok (countFound s.files keys) (keysTotal s.files keys)
    ∧ cellVal (handleConfirm s keys pin nowIso).2 = cellVal s + keysTotal s.files keys
    ∧ ∀ k, foundKey s.files k = false →
        r2get k (handleConfirm s keys pin nowIso).2.files = none := by
  obtain ⟨h1, h2⟩ := handleConfirm_spec s keys pin nowIso h
  refine ⟨h1, h2, ?_⟩
  intro k hk
  have hnone : r2get k s.files = none := by
    rw [foundKey] at hk
    cases hr : r2get k s.files
    · rfl
    · rw [hr] at hk
      cases hk
  have hv := confirm_view s keys pin nowIso k
  rw [hnone] at hv
  cases hr2 : r2get k (handleConfirm s keys pin nowIso).2.files
  · rfl
  · rw [hr2] at hv
    cases hv

/-- Witness for C3: confirming the keys `["a", "miss"]` against a
bucket holding only a seven-byte object under `"a"` succeeds with
`updated = 1`, `totalBytes = 7`, and raises the counter from 7 to
14. -/
theorem confirm_totals_c3_witness :
    (["a", "miss"] : List String) ≠ []
    ∧ (handleConfirm c3State ["a", "miss"] true "t").1 = .ok 1 7
    ∧ cellVal (handleConfirm c3State ["a", "miss"] true "t").2 = 14 := by
  have h := confirm_totals_c3 c3State ["a", "miss"] true "t" (by decide)
  refine ⟨by decide, ?_, ?_⟩
  · rw [h.1]
    decide
  · rw [h.2.1]
    decide

/-- C4 (corrected): `/api/confirm` re-adds the found bytes on every
call. Against a bucket holding one five-byte object (counter 0, as
after a presigned upload), two confirms of the same key leave the
counter at 10 while the stored bytes remain 5: the second call does
add the bytes the first call already counted. -/
theorem confirm_c4_counterexample :
    cellVal (handleConfirm (handleConfirm c4State ["k"] false "t1").2 ["k"] false "t2").2 = 10
    ∧ sumSizes (handleConfirm (handleConfirm c4State ["k"] false "t1").2 ["k"] false "t2").2.files = 5
    ∧ ¬ ((10 : Int) ≤ 5) := by
  decide

/-- C4 (amended): two successive `/api/confirm` calls with the same
non-empty key list each report the same `updated` count and
`totalBytes` (the found objects and their sizes are unchanged by the
metadata rewrite), and each call increments the counter cell by that
total, so after the second call the cell equals its initial value plus
twice the found-size sum — the counter can therefore exceed the true
stored bytes. -/
theorem confirm_twice_c4 (s : GwState) (keys : List String) (pin1 pin2 : Bool)
    (t1 t2 : String) (h : keys ≠ []) :
    (handleConfirm s keys pin1 t1).1
        = .ok (countFound s.files keys) (keysTotal s.files keys)
    ∧ (handleConfirm (handleConfirm s keys pin1 t1).2 keys pin2 t2).1
        = .ok (countFound s.files keys) (keysTotal s.files keys)
    ∧ cellVal (handleConfirm (handleConfirm s keys pin1 t1).2 keys pin2 t2).2
        = cellVal s + 2 * keysTotal s.files keys := by
  have hview := confirm_view s keys pin1 t1
  have hcf : countFound (handleConfirm s keys pin1 t1).2.files = countFound s.files :=
    countFound_congr hview
  have hkt : keysTotal (handleConfirm s keys pin1 t1).2.files = keysTotal s.files :=
    keysTotal_congr hview
  obtain ⟨a1, a2⟩ := handleConfirm_spec s keys pin1 t1 h
  obtain ⟨b1, b2⟩ := handleConfirm_spec (handleConfirm s keys pin1 t1).2 keys pin2 t2 h
  refine ⟨a1, ?_, ?_⟩
  · rw [b1, hcf, hkt]
  · rw [b2, a2, hkt]
    ring

/-- Witness for C2: a pinned object survives a sweep pass, applying the
amended sweep theorem at a concrete bucket and discharging its
membership and pinned hypotheses. -/
theorem sweep_semantics_c2_witness :
    ("p", c2PinObj) ∈ (handleCleanup c2Parse 604800010 c2PinState (some "cron")).2.files :=
  (sweep_semantics_c2 c2Parse 604800010 c2PinState).2.2.2 ("p", c2PinObj)
    (by decide) (by decide)

/-- Witness for C4: two confirms of `["k"]` against the five-byte
bucket, via the amended theorem at concrete inputs. -/
theorem confirm_twice_c4_witness :
    (["k"] : List String) ≠ []
    ∧ (handleConfirm (handleConfirm c4State ["k"] false "t1").2 ["k"] false "t2").1 = .ok 1 5
    ∧ cellVal (handleConfirm (handleConfirm c4State ["k"] false "t1").2 ["k"] false "t2").2 = 10 := by
  have h := confirm_twice_c4 c4State ["k"] false false "t1" "t2" (by decide)
  refine ⟨by decide, ?_, ?_⟩
  · rw [h.2.1]
    decide
  · rw [h.2.2]
    decide

/-- C7 (corrected): the per-object loops have no per-item error
isolation. With three sweep-eligible objects and a delete of `"b"` that
throws, the pass aborts: `"a"` is deleted, `"b"` and the later `"c"`
remain, no counts are returned and the counter cell is untouched even
though `"a"` was freed — the remaining objects are not processed. -/
theorem loops_c7_counterexample :
    handleCleanupF c7Parse 0 c7Failing c7State (some "cron")
        = .error { c7State with files := [("b", c7B), ("c", c7C)] }
    ∧ eligible c7Parse (0 - ONE_WEEK_MS) c7C = true
    ∧ ({ c7State with files := [("b", c7B), ("c", c7C)] } : GwState).cell = c7State.cell :=
  ⟨rfl, rfl, rfl⟩

/-- C7 (amended): a throw while processing one object aborts the
remaining items. In the sweep, when every eligible object enumerated
before the failing object deletes cleanly, the pass stops at the
failing object: earlier eligible objects are deleted, the failing
object and everything after it survive untouched, and the end-of-pass
counter reconciliation is skipped (the error state keeps the original
cell). In confirm, a throwing metadata rewrite of any found key aborts
the call before the counter bump. -/
theorem loops_abort_c7 :
    (∀ (parse : String → Option Int) (now : Int) (failing : String → Bool) (s : GwState)
        (pre post : List (String × R2Object)) (o : String × R2Object),
        s.files = pre ++ o :: post →
        (∀ p ∈ pre, eligible parse (now - ONE_WEEK_MS) p.2 = true → failing p.1 = false) →
        eligible parse (now - ONE_WEEK_MS) o.2 = true →
        failing o.1 = true →
        handleCleanupF parse now failing s (some "cron")
          = .error
              { s with files :=
                  pre.filter (fun p => !eligible parse (now - ONE_WEEK_MS) p.2) ++ o :: post })
    ∧ ∀ (s : GwState) (keys : List String) (pin : Bool) (nowIso : String)
        (failingPut : String → Bool),
        (∃ k ∈ keys, foundKey s.files k = true ∧ failingPut k = true) →
        ∃ fs, handleConfirmF s keys pin nowIso failingPut = .error { s with files := fs } := by
  constructor
  · intro parse now failing s pre post o hsplit hpre helig hfail
    have hl := cleanupLoopF_error (fun p => eligible parse (now - ONE_WEEK_MS) p.2) failing
      o post helig hfail pre 0 0 [] hpre
    simp [handleCleanupF, hsplit, hl]
  · intro s keys pin nowIso failingPut hex
    have hne : keys ≠ [] := by
      rintro rfl
      obtain ⟨k, hk, -⟩ := hex
      cases hk
    obtain ⟨fs, hfs⟩ := confirmLoopF_error pin nowIso failingPut keys s.files hex
    exact ⟨fs, by simp [handleConfirmF, hne, hfs]⟩

/-- Witness for C7: both abort behaviors at concrete inputs — the sweep
aborting at `"b"` with `"a"` already deleted, and a confirm of `["x"]`
aborting on its failing rewrite. -/
theorem loops_abort_c7_witness :
    handleCleanupF c7Parse 0 c7Failing c7State (some "cron")
        = .error
            { c7State with files :=
                [("a", c7A)].filter (fun p => !eligible c7Parse (0 - ONE_WEEK_MS) p.2)
                  ++ ("b", c7B) :: [("c", c7C)] }
    ∧ ∃ fs, handleConfirmF c7ConfState ["x"] false "t" c7FailPut
        = .error { c7ConfState with files := fs } :=
  ⟨loops_abort_c7.1 c7Parse 0 c7Failing c7State [("a", c7A)] [("c", c7C)] ("b", c7B)
      rfl (by decide) (by decide) (by decide),
   loops_abort_c7.2 c7ConfState ["x"] false "t" c7FailPut ⟨"x", by decide, by decide, by decide⟩⟩

/-- C8 (confirmed): `DELETE /api/files/:key` on an absent key returns
the not-found response and leaves the whole state (bucket and counter)
unchanged; on a stored key it reports success, removes exactly that
object, and lowers the counter cell by the object's recorded size. -/
theorem delete_semantics_c8 (s : GwState) (key : String)
    (hnd : (s.files.map Prod.fst).Nodup) :
    (r2get key s.files = none → handleDelete s key = (.notFound, s))
    ∧ ∀ o, r2get key s.files = some o →
        (handleDelete s key).1 = .ok
        ∧ r2get key (handleDelete s key).2.files = none
        ∧ cellVal (handleDelete s key).2 = cellVal s - (o.size : Int)
        ∧ ∀ k', k' ≠ key → r2get k' (handleDelete s key).2.files = r2get k' s.files := by
  constructor
  · intro h
    simp [handleDelete, h]
  · intro o h
    refine ⟨?_, ?_, ?_, ?_⟩
    · simp [handleDelete, h]
    · simp only [handleDelete, h, bumpUsedBytes]
      exact r2get_r2erase_self key s.files hnd
    · simp only [handleDelete, h]
      simp [bumpUsedBytes, cellVal]
      omega
    · intro k' hk'
      simp only [handleDelete, h, bumpUsedBytes]
      exact r2get_r2erase_other key k' hk' s.files

/-- Witness for C8: deleting the absent key `"z"` from the one-object
bucket is a no-op 404, while deleting `"k"` succeeds and drops the
counter from 10 to 6. -/
theorem delete_semantics_c8_witness :
    handleDelete c8State "z" = (.notFound, c8State)
    ∧ (handleDelete c8State "k").1 = .ok
    ∧ cellVal (handleDelete c8State "k").2 = 6 := by
  have hz := delete_semantics_c8 c8State "z" (by decide)
  have hk := delete_semantics_c8 c8State "k" (by decide)
  refine ⟨hz.1 (by decide), ?_, ?_⟩
  · exact (hk.2 ⟨4, none, none, none, none⟩ (by decide)).1
  · have h := (hk.2 ⟨4, none, none, none, none⟩ (by decide)).2.2.1
    rw [h]
    decide

/-- C1 (confirmed): for a batch that passes the count and type checks,
both upload admission points reject with the quota response carrying
the current usage exactly when `used + batchBytes >= BYTES_LIMIT`
(the boundary case rejects), and on rejection the returned state is
exactly the state left by the counter read: the bucket, the pending
snapshot and the observable counter value are unchanged, and the
result carries no presigned URL and no stored file. -/
theorem upload_quota_gate_c1
    (s : GwState) (files : List FileDecl) (pin : Bool) (creds : Option R2Creds)
    (presignF : String → String) (uuid : Nat → String) (nowIso : String)
    (hne : files ≠ []) (hcount : files.length ≤ MAX_FILES_PER_BATCH)
    (hv2 : ∀ f ∈ files, isAllowedV2 f.type (some f.name) = true)
    (hv1 : ∀ f ∈ files, isAllowedV1 (f.type.getD "") f.name = true) :
    ((getUsedBytes s).1 + batchSum files ≥ BYTES_LIMIT →
      handleUploadUrls s files pin creds presignF uuid
          = (.quotaFull (getUsedBytes s).1, (getUsedBytes s).2)
        ∧ handleUpload s files pin uuid nowIso
          = (.quotaFull (getUsedBytes s).1, (getUsedBytes s).2))
    ∧ ((getUsedBytes s).1 + batchSum files < BYTES_LIMIT →
      (∀ u, (handleUploadUrls s files pin creds presignF uuid).1 ≠ UrlsResult.quotaFull u)
        ∧ ∀ u, (handleUpload s files pin uuid nowIso).1 ≠ UploadResult.quotaFull u)
    ∧ (getUsedBytes s).2.files = s.files
    ∧ (getUsedBytes s).2.pending = s.pending
    ∧ (getUsedBytes ((getUsedBytes s).2)).1 = (getUsedBytes s).1 := by
  have hlen0 : ¬ files.length = 0 := by
    simpa [List.length_eq_zero] using hne
  have hgt : ¬ files.length > MAX_FILES_PER_BATCH := Nat.not_lt.mpr hcount
  have hfind2 : files.find? (fun f => !isAllowedV2 f.type (some f.name)) = none := by
    rw [List.find?_eq_none]
    intro f hf
    simp [hv2 f hf]
  have hfind1 : files.find? (fun f => !isAllowedV1 (f.type.getD "") f.name) = none := by
    rw [List.find?_eq_none]
    intro f hf
    simp [hv1 f hf]
  refine ⟨fun hge => ⟨?_, ?_⟩, fun hlt => ⟨?_, ?_⟩,
    getUsedBytes_files s, getUsedBytes_pending s, getUsedBytes_stable s⟩
  · simp [handleUploadUrls, hlen0, hgt, hfind2, hge]
  · simp [handleUpload, hlen0, hgt, hfind1, hge]
  · intro u
    cases hc : creds <;>
      simp [handleUploadUrls, hlen0, hgt, hfind2, not_le.mpr hlt, hc]
  · intro u
    simp [handleUpload, hlen0, hgt, hfind1, not_le.mpr hlt]

/-- Witness for C1: a one-file batch of five declared bytes against a
state five bytes below the ceiling — the boundary case
`used + batchBytes = BYTES_LIMIT` — is rejected by both admission
points with the quota response, leaving the state untouched. -/
theorem upload_quota_gate_c1_witness :
    c1Files ≠ []
    ∧ c1Files.length ≤ MAX_FILES_PER_BATCH
    ∧ (∀ f ∈ c1Files, isAllowedV2 f.type (some f.name) = true)
    ∧ (∀ f ∈ c1Files, isAllowedV1 (f.type.getD "") f.name = true)
    ∧ (getUsedBytes c1State).1 + batchSum c1Files = BYTES_LIMIT
    ∧ handleUploadUrls c1State c1Files false none (fun _ => "url") (fun _ => "u")
        = (.quotaFull (BYTES_LIMIT - 5), c1State)
    ∧ handleUpload c1State c1Files false (fun _ => "u") "t"
        = (.quotaFull (BYTES_LIMIT - 5), c1State) := by
  have h := upload_quota_gate_c1 c1State c1Files false none (fun _ => "url") (fun _ => "u") "t"
    (by decide) (by decide) (by decide) (by decide)
  have hq := h.1 (by decide)
  refine ⟨by decide, by decide, by decide, by decide, by decide, ?_, ?_⟩
  · rw [hq.1]
    rfl
  · rw [hq.2]
    rfl
